import Mathlib

/-!
# Verification of the `punused` symbol-usage classifier

Shallow embedding of `internal/lib/run.go` (package `lib`) of the
`punused` tool: the workspace walker, the per-file symbol classifier
(`handleFile` / `handleSymbol`), the removal driver (`remove`), the
reporter (`usage.Print`) and the exported-name check (`isExported`).

External collaborators (the gopls backend, the `rf` removal command and
the glob matcher) are modelled as oracles inside a `RunEnv`; the file
system is modelled as a tree of `FSEntry` and Go's `filepath.Walk` is
embedded as `goWalk` following its source semantics (including
`SkipDir` handling and the conversion of a root `SkipDir` to `nil`).
Side effects (reference queries, removal invocations, log lines and
diagnostic output written to `cfg.Out`) are recorded as an explicit
`Event` trace.
-/

namespace Punused

/-- LSP symbol kinds, from `sourcegraph/go-lsp` (`SKFile = 1` … `SKArray = 18`);
`run.go` tests for `SKField`, `SKFunction` and `SKMethod`. -/
inductive SymbolKind where
  | file | module | «namespace» | package | «class» | method | property
  | field | constructor | enum | interface | function | variable | constant
  | string | number | boolean | array
deriving DecidableEq, Repr

/-- `SymbolKind.String()` from `sourcegraph/go-lsp` (`symbolKindName` map). -/
def SymbolKind.goString : SymbolKind → String
  | .file => "File"
  | .module => "Module"
  | .namespace => "Namespace"
  | .package => "Package"
  | .class => "Class"
  | .method => "Method"
  | .property => "Property"
  | .field => "Field"
  | .constructor => "Constructor"
  | .enum => "Enum"
  | .interface => "Interface"
  | .function => "Function"
  | .variable => "Variable"
  | .constant => "Constant"
  | .string => "String"
  | .number => "Number"
  | .boolean => "Boolean"
  | .array => "Array"

/-- LSP `Position`: 0-based line and character. -/
structure Position where
  line : Nat
  character : Nat
deriving DecidableEq, Repr

/-- LSP `Range`. -/
structure Range where
  start : Position
  «end» : Position
deriving DecidableEq, Repr

/-- LSP `Location`: a file URI plus a range. -/
structure Location where
  uri : String
  range : Range
deriving DecidableEq, Repr

/-- Modelled from the spec: the `Symbol` tree handed back by the backend
client adapter (the adapter's source file is not part of the excerpt):
name (may encode a receiver-qualified method name as `"(Type).Method"`),
kind, source location, and ordered children. -/
inductive Symbol where
  | mk (name : String) (kind : SymbolKind) (location : Location)
       (children : List Symbol)

def Symbol.name : Symbol → String
  | .mk n _ _ _ => n

def Symbol.kind : Symbol → SymbolKind
  | .mk _ k _ _ => k

def Symbol.location : Symbol → Location
  | .mk _ _ l _ => l

def Symbol.children : Symbol → List Symbol
  | .mk _ _ _ cs => cs

/-- Go `strings.Contains(s, string(c))` for a one-byte ASCII character:
byte-level search coincides with character-level search because an ASCII
byte never occurs inside a multi-byte UTF-8 sequence. -/
def goContains (s : String) (c : Char) : Bool :=
  s.toList.contains c

/-- Go `strings.HasPrefix`, at the character level (byte-level and
character-level prefixes of valid UTF-8 strings coincide). -/
def goHasPrefix (s pre : String) : Bool :=
  List.isPrefixOf pre.toList s.toList

/-- Go `strings.HasSuffix`, at the character level. -/
def goHasSuffix (s suf : String) : Bool :=
  List.isSuffixOf suf.toList s.toList

/-- Go `strings.ToLower` restricted to its ASCII action (the only one the
program exercises: it is applied to the backend's ASCII kind names). -/
def goToLower (s : String) : String :=
  (s.toList.map fun c =>
    if 'A' ≤ c ∧ c ≤ 'Z' then Char.ofNat (c.toNat + 32) else c).asString

/-- The characters after the first occurrence of `c` (Go
`s[strings.Index(s, ".")+1:]` at the character level; callers only use it
when the character occurs). -/
def afterFirst (c : Char) : List Char → List Char
  | [] => []
  | x :: rest => if x = c then rest else afterFirst c rest

/-- `run.go` lines 135-139: the base name of a symbol — for a method whose
name contains `.` (form `(Type).Method`), the part after the first `.`;
otherwise the full name. -/
def baseName (kind : SymbolKind) (name : String) : String :=
  if kind = SymbolKind.method ∧ goContains name '.' = true then
    (afterFirst '.' name.toList).asString
  else
    name

/-- `isExported` (run.go 245-247): `len(s) > 0 && s[0] >= 'A' && s[0] <= 'Z'`.
The byte test coincides with the first-character test: for an ASCII first
character the byte is the code point, and a non-ASCII first character has
first byte ≥ 0xC2 > 'Z' while its code point is also > 'Z'. -/
def isExported (s : String) : Bool :=
  match s.toList with
  | [] => false
  | c :: _ => decide ('A' ≤ c) && decide (c ≤ 'Z')

/-- The loop of run.go lines 156-161: `testOnly` stays `true` until a
reference whose URI does not end in `_test.go` is found (then `break`). -/
def allTestRefs : List Location → Bool
  | [] => true
  | ref :: rest =>
    if goHasSuffix ref.uri "_test.go" = true then allTestRefs rest else false

/-- run.go lines 150-153: `unused` is set exactly when the reference list
is empty. -/
def classifyUnused (refs : List Location) : Bool :=
  refs.length = 0

/-- run.go lines 150-162: `testOnly` is set (to the loop's result) only in
the non-empty branch. -/
def classifyTestOnly (refs : List Location) : Bool :=
  if refs.length = 0 then false else allTestRefs refs

/-! ## The removal reference: Go regexp `\(\*?(.+)\)\.(.+)` with `$1.$2`

Go's regexp package uses leftmost-first (Perl-like) semantics: the match
starts at the leftmost position admitting a match (necessarily at a `(`),
`\*?` greedily consumes a `*` when one follows the paren, each greedy
`(.+)` backtracks from the longest candidate, so group 1 extends to the
last `).`-occurrence that leaves group 2 non-empty, and group 2 then runs
to the end of the string.  Since every match of this pattern reaches the
end of the string, `ReplaceAll` performs at most one replacement. -/

/-- Whether a `).`-occurrence with a non-empty remainder starts right
here: `c` is `)` and the tail is `.` followed by at least one
character. -/
def parenDotHere (c : Char) (rest : List Char) :
    Option (List Char × List Char) :=
  if c = ')' then
    match rest with
    | '.' :: m :: ms => some ([], m :: ms)
    | _ => none
  else none

/-- Split `cs` as `g1 ++ ')' :: '.' :: g2` with `g2` non-empty, choosing
the longest `g1` (the rightmost such `).`); `none` when no such split
exists. -/
def splitLastParenDot : List Char → Option (List Char × List Char)
  | [] => none
  | c :: rest =>
    match splitLastParenDot rest with
    | some (g1, g2) => some (c :: g1, g2)
    | none => parenDotHere c rest

/-- A match attempt of `(.+)\)\.(.+)` on `rest`: the split of
`splitLastParenDot` is a match only when group 1 is non-empty (`.+`). -/
def regexTryMatch (rest : List Char) : Option (List Char × List Char) :=
  match splitLastParenDot rest with
  | some (g1, g2) => if g1 = [] then none else some (g1, g2)
  | none => none

/-- Matching `\*?(.+)\)\.(.+)` after an opening paren: the greedy `\*?`
first consumes a leading `*`; if no match results, it backtracks and the
`*` becomes part of group 1. -/
def regexMatchAfterParen (rest : List Char) : Option (List Char × List Char) :=
  match rest with
  | c :: rest2 =>
    if c = '*' then
      match regexTryMatch rest2 with
      | some r => some r
      | none => regexTryMatch rest
    else regexTryMatch rest
  | [] => regexTryMatch rest

/-- `methodRegexp.ReplaceAll(name, "$1.$2")` (run.go line 19 / 201):
scan for the leftmost `(` at which the pattern matches and replace the
match (which extends to the end of the string) with `g1 ++ "." ++ g2`. -/
def methodReplaceAll : List Char → List Char
  | [] => []
  | c :: rest =>
    if c = '(' then
      match regexMatchAfterParen rest with
      | some (g1, g2) => g1 ++ '.' :: g2
      | none => c :: methodReplaceAll rest
    else
      c :: methodReplaceAll rest

/-- The regexp rewrite lifted to strings. -/
def methodNameRewrite (name : String) : String :=
  (methodReplaceAll name.toList).asString

/-- run.go lines 199-202: the reference handed to the removal backend —
the symbol's name, except that a method name containing `.` goes through
the `methodRegexp` rewrite. -/
def removalReference (sym : Symbol) : String :=
  if sym.kind = SymbolKind.method ∧ goContains sym.name '.' = true then
    methodNameRewrite sym.name
  else sym.name

/-! ## Paths -/

/-- Go `filepath.Dir` for the clean relative paths that arise here: the
part before the last `/`, or `.` when there is no slash. -/
def filepathDir (p : String) : String :=
  let rev := p.toList.reverse
  if rev.contains '/' then ((afterFirst '/' rev).reverse).asString else "."

/-- Go `filepath.Join` for the clean shapes that arise here (it cleans the
result, so joining with `.` or an empty component is the identity). -/
def joinPath (dir name : String) : String :=
  if dir = "" then name
  else if name = "" ∨ name = "." then dir
  else dir ++ "/" ++ name

/-- Go `strings.TrimPrefix`: remove the leading occurrence of `pre`, if
present. -/
def trimLeading (s pre : String) : String :=
  if goHasPrefix s pre = true then (s.toList.drop pre.toList.length).asString
  else s

/-! ## Effects and environment -/

/-- Observable effects of a run, in order: reference queries issued to the
backend, removal-backend invocations (working directory and instruction
script), `log` lines, and diagnostic lines written to `cfg.Out`. -/
inductive Event where
  | refQuery (loc : Location)
  | removeCall (dir : String) (script : String)
  | logLine (msg : String)
  | output (line : String)
deriving DecidableEq, Repr

/-- The runner's configuration together with its external collaborators as
oracles: the compiled glob matcher, the two gopls queries, and the result
of an `rf` invocation (`none` = exit 0, `some diag` = failure with
diagnostic text). -/
structure RunEnv where
  workspaceDir : String
  filematcher : String → Bool
  documentSymbol : String → Except String (List Symbol)
  documentReferences : Location → Except String (List Location)
  removeFailure : String → String → Option String

/-- `usage` (run.go 227-231). -/
structure Usage where
  filename : String
  symbol : Symbol
  isTestOnly : Bool

/-- `usage.Print` (run.go 233-243): one line, 1-based coordinates obtained
by adding 1 to the backend's 0-based ones, lowercased kind, code EU1001
for test-only and EU1002 for unused. -/
def usagePrint (u : Usage) : String :=
  let s := u.symbol
  let loc := s.location
  let kind := goToLower (SymbolKind.goString s.kind)
  let line := loc.range.start.line + 1
  let col := loc.range.start.character + 1
  if u.isTestOnly = true then
    u.filename ++ ":" ++ toString line ++ ":" ++ toString col ++ " " ++ kind
      ++ " " ++ s.name ++ " is used in test only (EU1001)\n"
  else
    u.filename ++ ":" ++ toString line ++ ":" ++ toString col ++ " " ++ kind
      ++ " " ++ s.name ++ " is unused (EU1002)\n"

/-- `runner.remove` (run.go 198-225): build the removal reference and the
script `rm <reference>`, run `rf` with working directory
`Join(workspaceDir, Dir(filename))`; on failure return the wrapped error
message (the capture of the command's stdout is not observed by any
caller and is not modelled). -/
def removeRun (env : RunEnv) (filename : String) (sym : Symbol) :
    Event × Option String :=
  let reference := removalReference sym
  let script := "rm " ++ reference
  let dir := joinPath env.workspaceDir (filepathDir filename)
  (Event.removeCall dir script,
   (env.removeFailure dir script).map
     (fun diag => "unable to execute remove " ++ script ++ ": " ++ diag))

/-! ## The classifier: `handleFile` / `handleSymbol` (run.go 116-196) -/

/-- The per-node logic of the closure `handleSymbol` (run.go 123-187),
with the recursion into children factored out as `childResult`: early
returns for fields, test entry points in test files and unexported base
names (these discard the children — the Go code returns before the child
loop); then the reference query (whose failure also returns before the
child loop), classification, removal for unused symbols (with logged,
non-fatal failure), reporting, and finally the children's events and
error. -/
def handleSymbolCore (env : RunEnv) (filename name : String)
    (kind : SymbolKind) (loc : Location) (children : List Symbol)
    (childResult : List Event × Option String) :
    List Event × Option String :=
  if kind = SymbolKind.field then ([], none)
  else if goHasSuffix filename "_test.go" = true ∧ kind = SymbolKind.function
      ∧ (goHasPrefix name "Test" || goHasPrefix name "Benchmark"
         || goHasPrefix name "Example") = true then
    ([], none)
  else if isExported (baseName kind name) = false then ([], none)
  else
    match env.documentReferences loc with
    | .error e => ([Event.refQuery loc], some ("failed to get references: " ++ e))
    | .ok refs =>
      (Event.refQuery loc ::
        ((if classifyUnused refs = true then
            match removeRun env filename (.mk name kind loc children) with
            | (ev, some m) => [ev, Event.logLine m]
            | (ev, none) => [ev]
          else []) ++
         ((if classifyUnused refs = true ∨ classifyTestOnly refs = true then
             [Event.output
               (usagePrint ⟨filename, .mk name kind loc children,
                 classifyTestOnly refs⟩)]
           else []) ++
          childResult.1)),
       childResult.2)

/-- Combine one symbol's result with the rest of the loop's result: the
loop of run.go 180-184 / 189-193 stops at the first error. -/
def combineResults (r1 r2 : List Event × Option String) :
    List Event × Option String :=
  match r1 with
  | (evs, some e) => (evs, some e)
  | (evs, none) => (evs ++ r2.1, r2.2)

mutual

/-- The closure `handleSymbol` of run.go 122-187, as the per-node core
applied to the node and the result of handling its children. -/
def handleSymbol (env : RunEnv) (filename : String) :
    Symbol → List Event × Option String
  | .mk name kind loc children =>
    handleSymbolCore env filename name kind loc children
      (handleSymbolList env filename children)
termination_by structural s => s

/-- The loop over root symbols / children (run.go 180-184 and 189-193). -/
def handleSymbolList (env : RunEnv) (filename : String) :
    List Symbol → List Event × Option String
  | [] => ([], none)
  | s :: rest =>
    combineResults (handleSymbol env filename s)
      (handleSymbolList env filename rest)
termination_by structural ss => ss

end

/-- `runner.handleFile` (run.go 116-196): list the file's symbols (a
failure wraps the error and aborts this file), then handle each root
symbol. -/
def handleFile (env : RunEnv) (filename : String) : List Event × Option String :=
  match env.documentSymbol filename with
  | .error e => ([], some ("failed to get symbols: " ++ e))
  | .ok symbols => handleSymbolList env filename symbols

/-! ## The workspace walker: Go `filepath.Walk` over a file-tree model -/

/-- A node of the file tree: a regular file, a directory with its
(deterministically ordered) entries, or an entry whose `lstat` fails with
the given message. -/
inductive FSEntry where
  | file (name : String)
  | dir (name : String) (entries : List FSEntry)
  | statError (name : String) (msg : String)

def FSEntry.name : FSEntry → String
  | .file n => n
  | .dir n _ => n
  | .statError n _ => n

def FSEntry.isDir : FSEntry → Bool
  | .dir _ _ => true
  | _ => false

/-- What the callback sees of `fs.FileInfo` (`Name()` and `IsDir()`). -/
structure FileInfo where
  name : String
  isDir : Bool
deriving DecidableEq, Repr

/-- The error value a walk callback returns: `nil`, `filepath.SkipDir`,
or a real error. -/
inductive WalkSignal where
  | ok
  | skipDir
  | fail (msg : String)
deriving DecidableEq, Repr

/-- A walk callback: path, `FileInfo` (`none` when `lstat` failed), the
incoming error, and a state it threads (the event trace), returning the
new state and its signal. -/
abbrev WalkFn (σ : Type) :=
  String → Option FileInfo → Option String → σ → σ × WalkSignal

mutual

/-- Go's `filepath.walk` on a single entry whose `lstat` succeeded: a
file's callback result is returned as is; for a directory the callback
runs first (its `SkipDir` or error is returned to the caller), then the
entries are walked. -/
def goWalkEntry (fn : WalkFn σ) (path : String) :
    FSEntry → σ → σ × WalkSignal
  | .file name, st => fn path (some ⟨name, false⟩) none st
  | .statError _ _, st => (st, .ok)
  | .dir name entries, st =>
    match fn path (some ⟨name, true⟩) none st with
    | (st, .ok) => goWalkEntries fn path entries st
    | (st, sig) => (st, sig)
termination_by structural e => e

/-- Go's `filepath.walk` loop over a directory's entries: an entry whose
`lstat` fails has the callback invoked with `nil` info and the error
(`SkipDir` or `nil` continue the loop, an error aborts); otherwise the
child is walked — a `SkipDir` from a directory child is swallowed and the
loop continues, a `SkipDir` from a file child propagates, an error
aborts. -/
def goWalkEntries (fn : WalkFn σ) (dirPath : String) :
    List FSEntry → σ → σ × WalkSignal
  | [], st => (st, .ok)
  | .statError n msg :: rest, st =>
    (match fn (joinPath dirPath n) none (some msg) st with
     | (st, .fail m) => (st, .fail m)
     | (st, _) => goWalkEntries fn dirPath rest st)
  | e :: rest, st =>
    (match goWalkEntry fn (joinPath dirPath e.name) e st with
     | (st, .ok) => goWalkEntries fn dirPath rest st
     | (st, .skipDir) =>
       if e.isDir = true then goWalkEntries fn dirPath rest st
       else (st, .skipDir)
     | (st, .fail m) => (st, .fail m))
termination_by structural es => es

end

/-- Go `filepath.Walk`: when the root's `lstat` fails the callback runs
once with `nil` info; a final `SkipDir` is converted to `nil`. -/
def goWalk (fn : WalkFn σ) (root : String) (rootEntry : FSEntry) (st : σ) :
    σ × Option String :=
  match rootEntry with
  | .statError _ msg =>
    (match fn root none (some msg) st with
     | (st, .fail m) => (st, some m)
     | (st, _) => (st, none))
  | e =>
    (match goWalkEntry fn root e st with
     | (st, .fail m) => (st, some m)
     | (st, _) => (st, none))

/-- The walk callback of `runner.Walk` (run.go 90-113): `nil` info
returns `nil` (dropping the incoming error); hidden directories are
pruned with `SkipDir`; non-`.go` paths are skipped; the path relative to
the workspace root (`filepath.ToSlash` is the identity on slash paths)
must match the glob; then the file is handled and `handleFile`'s error is
returned to the walk. -/
def runnerWalkFn (env : RunEnv) : WalkFn (List Event) :=
  fun path info _err st =>
    match info with
    | none => (st, .ok)
    | some i =>
      if i.isDir = true then
        if goHasPrefix i.name "." = true then (st, .skipDir) else (st, .ok)
      else if goHasSuffix path ".go" = false then (st, .ok)
      else
        let base := trimLeading (trimLeading path env.workspaceDir) "/"
        if env.filematcher base = false then (st, .ok)
        else
          match handleFile env base with
          | (evs, some m) => (st ++ evs, .fail m)
          | (evs, none) => (st ++ evs, .ok)

/-- `runner.Walk` (run.go 89-114): `filepath.Walk` from the workspace
root with the runner's callback; `rootEntry` models the tree at
`workspaceDir`, and its `name` is the root's base name (what
`info.Name()` reports for the root). -/
def runnerWalk (env : RunEnv) (rootEntry : FSEntry) :
    List Event × Option String :=
  goWalk (runnerWalkFn env) env.workspaceDir rootEntry []

/-- The diagnostic lines written to `cfg.Out`, in order, within a trace. -/
def outputsOf (evs : List Event) : List String :=
  evs.filterMap fun e =>
    match e with
    | .output line => some line
    | _ => none

/-! ## Helper lemmas -/

theorem allTestRefs_eq_true_iff (refs : List Location) :
    allTestRefs refs = true ↔ ∀ r ∈ refs, goHasSuffix r.uri "_test.go" = true := by
  induction refs with
  | nil => simp [allTestRefs]
  | cons r rest ih =>
    by_cases h : goHasSuffix r.uri "_test.go" = true <;>
      simp [allTestRefs, h, ih]

theorem afterFirst_append (m : List Char) :
    ∀ l : List Char, l.contains '.' = false →
    afterFirst '.' (l ++ '.' :: m) = m := by
  intro l
  induction l with
  | nil => intro _; simp [afterFirst]
  | cons c cs ih =>
    intro h
    simp only [List.contains_cons, Bool.or_eq_false_iff] at h
    have hc : ¬(c = '.') := by
      intro hceq
      subst hceq
      simp at h
    simpa [afterFirst, hc] using ih h.2

theorem toList_ne_nil {s : String} (h : s ≠ "") : s.toList ≠ [] := by
  intro hnil
  exact h (String.toList_inj.mp (hnil.trans String.toList_empty.symm))

/-! ## C3: field symbols -/

/-- C3 (amended) — `field_subtree_skipped`: a symbol node of kind field is
skipped entirely: it is never queried for references, never classified and
never reported, and — contrary to the claim — its descendants are not
traversed either: the early return in `handleSymbol` (run.go 125-127)
precedes the child loop, so the whole subtree produces no events and no
error. -/
theorem field_subtree_skipped (env : RunEnv) (filename name : String)
    (loc : Location) (children : List Symbol) :
    handleSymbol env filename (.mk name SymbolKind.field loc children)
      = ([], none) := by
  rw [handleSymbol]
  simp [handleSymbolCore]

/-- Concrete environment for checking C3: the backend reports no
references for any symbol, so any exported symbol is classified Unused. -/
def envC3 : RunEnv where
  workspaceDir := "/ws"
  filematcher := fun _ => true
  documentSymbol := fun _ => .ok []
  documentReferences := fun _ => .ok []
  removeFailure := fun _ _ => none

def locC3 : Location := ⟨"file:///ws/a.go", ⟨⟨3, 0⟩, ⟨3, 5⟩⟩⟩

def childC3 : Symbol := .mk "Exported" SymbolKind.function locC3 []

/-- C3 counterexample: a field node with an exported, reference-free
function child produces no events at all — the child is not traversed,
not classified and not reported — although the same child handled on its
own is classified Unused (reference query, removal call and diagnostic
line).  This refutes the claim that a field's descendant nodes are still
traversed and independently classified. -/
theorem field_children_not_traversed_cex :
    handleSymbol envC3 "a.go" (.mk "F" SymbolKind.field locC3 [childC3])
      = ([], none)
    ∧ handleSymbol envC3 "a.go" childC3
      = ([Event.refQuery locC3, Event.removeCall "/ws" "rm Exported",
          Event.output "a.go:4:1 function Exported is unused (EU1002)\n"],
         none) := by
  constructor
  · rw [handleSymbol]
    simp [handleSymbolCore]
  · simp only [childC3, handleSymbol, handleSymbolList]
    decide

/-! ## C7: test entry points in test files -/

/-- C7: in a file whose name ends in `_test.go`, a function symbol whose
name begins with `Test`, `Benchmark` or `Example` is skipped before any
reference query: no events, no classification, no report. -/
theorem test_entry_points_skipped (env : RunEnv) (filename name : String)
    (loc : Location) (children : List Symbol)
    (hfile : goHasSuffix filename "_test.go" = true)
    (hname : goHasPrefix name "Test" = true ∨ goHasPrefix name "Benchmark" = true
      ∨ goHasPrefix name "Example" = true) :
    handleSymbol env filename (.mk name SymbolKind.function loc children)
      = ([], none) := by
  rw [handleSymbol]
  rcases hname with h | h | h <;> simp [handleSymbolCore, hfile, h]

/-- Witness for C7 at a concrete input. -/
theorem test_entry_points_skipped_witness :
    handleSymbol envC3 "x_test.go"
        (.mk "TestFoo" SymbolKind.function locC3 []) = ([], none) :=
  test_entry_points_skipped envC3 "x_test.go" "TestFoo" locC3 []
    (by decide) (Or.inl (by decide))

/-! ## C10: hidden workspace root -/

/-- C10: when the workspace root directory's own base name begins with
`.`, the hidden-directory rule fires on the root itself (`filepath.Walk`
invokes the callback on the root first, and the callback returns
`SkipDir`, which `Walk` converts to `nil`): the walk is pruned
immediately, no file reaches the classifier and the run produces no
events and no error — whatever the glob pattern and the rest of the
environment. -/
theorem hidden_root_prunes_walk (env : RunEnv) (rootName : String)
    (entries : List FSEntry)
    (h : goHasPrefix rootName "." = true) :
    runnerWalk env (.dir rootName entries) = ([], none) := by
  simp [runnerWalk, goWalk, goWalkEntry, runnerWalkFn, h]

/-- Witness for C10 at a concrete input. -/
theorem hidden_root_prunes_walk_witness :
    runnerWalk envC3 (.dir ".cache" [.file "a.go"]) = ([], none) :=
  hidden_root_prunes_walk envC3 ".cache" [.file "a.go"] (by decide)

/-! ## C9: traversal-time filesystem errors -/

/-- Concrete environment for the C9 counterexample. -/
def envC9 : RunEnv where
  workspaceDir := "/ws"
  filematcher := fun _ => true
  documentSymbol := fun _ => .ok []
  documentReferences := fun _ => .ok []
  removeFailure := fun _ _ => none

/-- C9 counterexample: a filesystem error during traversal (a child whose
`lstat` fails, handed to the walk callback with `nil` info) is dropped
without any log line: the run's trace is empty (in particular it has no
log event) and no error is propagated — refuting the claim that no
traversal-time error is dropped without a log line. -/
theorem fs_error_silently_dropped_cex :
    runnerWalk envC9 (.dir "ws" [.statError "ghost.go" "stat failed"])
      = ([], none) := by
  simp only [runnerWalk, goWalk, goWalkEntry, goWalkEntries, runnerWalkFn]
  decide

/-- C9 (amended) — `fs_errors_dropped_walk_continues`: the walk callback
returns `nil` whenever `info` is `nil` (run.go 91-93), discarding the
incoming filesystem error with no log line; consequently an entry whose
`lstat` fails is skipped and the walk continues with the remaining
entries unchanged.  Only errors returned by `handleFile` are propagated
(aborting the walk); filesystem errors handed to the callback are
silently swallowed. -/
theorem fs_errors_dropped_walk_continues :
    (∀ (env : RunEnv) (path msg : String) (st : List Event),
      runnerWalkFn env path none (some msg) st = (st, WalkSignal.ok))
    ∧ (∀ (env : RunEnv) (dirPath n msg : String) (rest : List FSEntry)
        (st : List Event),
      goWalkEntries (runnerWalkFn env) dirPath (.statError n msg :: rest) st
        = goWalkEntries (runnerWalkFn env) dirPath rest st) := by
  constructor
  · intro env path msg st
    simp [runnerWalkFn]
  · intro env dirPath n msg rest st
    rw [goWalkEntries]
    simp [runnerWalkFn]

/-! ## C1: the classification outcomes -/

theorem toList_append (s t : String) :
    (s ++ t).toList = s.toList ++ t.toList :=
  String.data_append s t

/-- C1: for a symbol that survives the skip rules and whose reference set
is obtained, exactly one of the three outcomes holds — Unused when the
reference set is empty, TestOnly when it is non-empty and every
reference's file ends in `_test.go`, Used otherwise; Unused holds iff the
reference count is zero, TestOnly implies a positive count, and a Used
symbol is neither removed nor reported (its only own event is the
reference query). -/
theorem classification_trichotomy (env : RunEnv) (filename name : String)
    (kind : SymbolKind) (loc : Location) (children : List Symbol)
    (refs : List Location)
    (hk : kind ≠ SymbolKind.field)
    (ht : ¬(goHasSuffix filename "_test.go" = true ∧ kind = SymbolKind.function
      ∧ (goHasPrefix name "Test" || goHasPrefix name "Benchmark"
         || goHasPrefix name "Example") = true))
    (he : isExported (baseName kind name) = true)
    (hr : env.documentReferences loc = .ok refs) :
    ((classifyUnused refs = true ∧ classifyTestOnly refs = false)
      ∨ (classifyUnused refs = false ∧ classifyTestOnly refs = true)
      ∨ (classifyUnused refs = false ∧ classifyTestOnly refs = false))
    ∧ (classifyUnused refs = true ↔ refs.length = 0)
    ∧ (classifyTestOnly refs = true → 0 < refs.length)
    ∧ (refs ≠ [] →
        (classifyTestOnly refs = true ↔
          ∀ r ∈ refs, goHasSuffix r.uri "_test.go" = true))
    ∧ (classifyUnused refs = false → classifyTestOnly refs = false →
        handleSymbol env filename (.mk name kind loc children)
          = (Event.refQuery loc :: (handleSymbolList env filename children).1,
             (handleSymbolList env filename children).2)) := by
  refine ⟨?_, ?_, ?_, ?_, ?_⟩
  · rcases refs with _ | ⟨r, rs⟩
    · exact Or.inl (by simp [classifyUnused, classifyTestOnly])
    · cases h : allTestRefs (r :: rs)
      · exact Or.inr (Or.inr (by simp [classifyUnused, classifyTestOnly, h]))
      · exact Or.inr (Or.inl (by simp [classifyUnused, classifyTestOnly, h]))
  · simp [classifyUnused]
  · intro h
    simp only [classifyTestOnly] at h
    by_cases h0 : refs.length = 0
    · rw [if_pos h0] at h
      exact absurd h (by simp)
    · exact Nat.pos_of_ne_zero h0
  · intro hne
    have h0 : ¬(refs.length = 0) := by simpa using hne
    simp only [classifyTestOnly, if_neg h0]
    exact allTestRefs_eq_true_iff refs
  · intro h1 h2
    rw [handleSymbol]
    simp only [handleSymbolCore]
    rw [if_neg hk, if_neg ht, if_neg (by simp [he]), hr]
    simp [h1, h2]

def locC1 : Location := ⟨"file:///ws/a.go", ⟨⟨3, 0⟩, ⟨3, 5⟩⟩⟩

/-- A reference in a non-test file: it forces the Used outcome. -/
def refC1 : Location := ⟨"file:///ws/b.go", ⟨⟨7, 2⟩, ⟨7, 5⟩⟩⟩

def envC1 : RunEnv where
  workspaceDir := "/ws"
  filematcher := fun _ => true
  documentSymbol := fun _ => .ok []
  documentReferences := fun _ => .ok [refC1]
  removeFailure := fun _ _ => none

/-- Witness for C1 at a concrete input: one non-test reference makes the
symbol Used, and its trace holds the reference query only — no removal,
no diagnostic line. -/
theorem classification_trichotomy_witness :
    (classifyUnused [refC1] = false ∧ classifyTestOnly [refC1] = false)
    ∧ handleSymbol envC1 "a.go" (.mk "Foo" SymbolKind.function locC1 [])
        = ([Event.refQuery locC1], none) := by
  have h := classification_trichotomy envC1 "a.go" "Foo" SymbolKind.function
    locC1 [] [refC1] (by decide) (by decide) (by decide) rfl
  refine ⟨⟨by decide, by decide⟩, ?_⟩
  rw [h.2.2.2.2 (by decide) (by decide)]
  simp [handleSymbolList]

/-! ## C4: base name and the exported gate -/

/-- C4: the base name of a method whose name contains a `.` is the part
after the first `.` (other symbols keep their full name); a symbol is
exported exactly when the first character of its base name is an ASCII
uppercase letter; for a node that survives the field and test skips, an
unexported base name makes the node disappear entirely (in particular it
is never the subject of a reference query), while an exported one leads
to a reference query. -/
theorem base_name_and_export_gate :
    (∀ pre suf : String, pre.toList.contains '.' = false →
      baseName SymbolKind.method (pre ++ "." ++ suf) = suf)
    ∧ (∀ (kind : SymbolKind) (name : String),
      kind ≠ SymbolKind.method ∨ goContains name '.' = false →
      baseName kind name = name)
    ∧ (∀ s : String, isExported s = true ↔
      ∃ c cs, s.toList = c :: cs ∧ 'A' ≤ c ∧ c ≤ 'Z')
    ∧ (∀ (env : RunEnv) (filename name : String) (kind : SymbolKind)
        (loc : Location) (children : List Symbol),
      kind ≠ SymbolKind.field →
      ¬(goHasSuffix filename "_test.go" = true ∧ kind = SymbolKind.function
        ∧ (goHasPrefix name "Test" || goHasPrefix name "Benchmark"
           || goHasPrefix name "Example") = true) →
      (isExported (baseName kind name) = false →
        handleSymbol env filename (.mk name kind loc children) = ([], none))
      ∧ (isExported (baseName kind name) = true →
        Event.refQuery loc ∈ (handleSymbol env filename (.mk name kind loc children)).1)) := by
  refine ⟨?_, ?_, ?_, ?_⟩
  · intro pre suf h
    have hl : (pre ++ "." ++ suf).toList = pre.toList ++ '.' :: suf.toList := by
      simp [toList_append]
    have hc : goContains (pre ++ "." ++ suf) '.' = true := by
      simp [goContains, hl]
    rw [baseName, if_pos ⟨rfl, hc⟩, hl, afterFirst_append _ _ h,
      String.asString_toList]
  · intro kind name h
    rcases h with h | h
    · rw [baseName, if_neg]
      rintro ⟨h1, -⟩
      exact h h1
    · rw [baseName, if_neg]
      rintro ⟨-, h2⟩
      rw [h] at h2
      exact Bool.false_ne_true h2
  · intro s
    constructor
    · intro h
      unfold isExported at h
      rcases hl : s.toList with _ | ⟨c, cs⟩
      · rw [hl] at h
        simp at h
      · rw [hl] at h
        simp only [Bool.and_eq_true, decide_eq_true_eq] at h
        exact ⟨c, cs, rfl, h.1, h.2⟩
    · rintro ⟨c, cs, hl, h1, h2⟩
      unfold isExported
      rw [hl]
      simp [h1, h2]
  · intro env filename name kind loc children hk ht
    constructor
    · intro hb
      rw [handleSymbol]
      simp only [handleSymbolCore]
      rw [if_neg hk, if_neg ht, if_pos hb]
    · intro hb
      rw [handleSymbol]
      simp only [handleSymbolCore]
      rw [if_neg hk, if_neg ht, if_neg (by simp [hb])]
      rcases hq : env.documentReferences loc with e | refs <;> simp

def locC4 : Location := ⟨"file:///ws/a.go", ⟨⟨3, 0⟩, ⟨3, 5⟩⟩⟩

def envC4 : RunEnv where
  workspaceDir := "/ws"
  filematcher := fun _ => true
  documentSymbol := fun _ => .ok []
  documentReferences := fun _ => .ok []
  removeFailure := fun _ _ => none

/-- Witness for C4 at concrete inputs: `(Foo).Bar` has base name `Bar`,
a non-method name keeps its name, `Bar` is exported, and the method
`(Foo).bar` (unexported base name `bar`) vanishes without a reference
query. -/
theorem base_name_and_export_gate_witness :
    baseName SymbolKind.method ("(Foo)" ++ "." ++ "Bar") = "Bar"
    ∧ baseName SymbolKind.function "Baz" = "Baz"
    ∧ isExported "Bar" = true
    ∧ handleSymbol envC4 "a.go" (.mk "(Foo).bar" SymbolKind.method locC4 [])
        = ([], none) := by
  have h := base_name_and_export_gate
  refine ⟨?_, ?_, ?_, ?_⟩
  · exact h.1 "(Foo)" "Bar" (by decide)
  · exact h.2.1 SymbolKind.function "Baz" (Or.inr (by decide))
  · exact (h.2.2.1 "Bar").mpr ⟨'B', ['a', 'r'], by decide, by decide, by decide⟩
  · exact (h.2.2.2 envC4 "a.go" "(Foo).bar" SymbolKind.method locC4 []
      (by decide) (by decide)).1 (by decide)

/-! ## C5: removal failures are logged and non-fatal -/

/-- C5: for an Unused symbol, a removal-backend failure adds one log line
after the removal call and nothing else: the diagnostic line is still
printed, the symbol contributes no error (the error component is the
children's), and the symbol loop continues with the following symbols; on
removal success the diagnostic line is likewise printed — it is
independent of the removal result. -/
theorem removal_failure_logged_nonfatal (env : RunEnv)
    (filename name : String) (kind : SymbolKind) (loc : Location)
    (children : List Symbol)
    (hk : kind ≠ SymbolKind.field)
    (ht : ¬(goHasSuffix filename "_test.go" = true ∧ kind = SymbolKind.function
      ∧ (goHasPrefix name "Test" || goHasPrefix name "Benchmark"
         || goHasPrefix name "Example") = true))
    (he : isExported (baseName kind name) = true)
    (hr : env.documentReferences loc = .ok []) :
    (∀ diag, env.removeFailure (joinPath env.workspaceDir (filepathDir filename))
        ("rm " ++ removalReference (Symbol.mk name kind loc children)) = some diag →
      handleSymbol env filename (.mk name kind loc children)
        = (Event.refQuery loc
            :: Event.removeCall (joinPath env.workspaceDir (filepathDir filename))
                 ("rm " ++ removalReference (Symbol.mk name kind loc children))
            :: Event.logLine ("unable to execute remove "
                 ++ ("rm " ++ removalReference (Symbol.mk name kind loc children))
                 ++ ": " ++ diag)
            :: Event.output (usagePrint ⟨filename, .mk name kind loc children, false⟩)
            :: (handleSymbolList env filename children).1,
           (handleSymbolList env filename children).2))
    ∧ (env.removeFailure (joinPath env.workspaceDir (filepathDir filename))
        ("rm " ++ removalReference (Symbol.mk name kind loc children)) = none →
      handleSymbol env filename (.mk name kind loc children)
        = (Event.refQuery loc
            :: Event.removeCall (joinPath env.workspaceDir (filepathDir filename))
                 ("rm " ++ removalReference (Symbol.mk name kind loc children))
            :: Event.output (usagePrint ⟨filename, .mk name kind loc children, false⟩)
            :: (handleSymbolList env filename children).1,
           (handleSymbolList env filename children).2))
    ∧ ((handleSymbolList env filename children).2 = none →
        ∀ rest : List Symbol,
          handleSymbolList env filename (Symbol.mk name kind loc children :: rest)
            = ((handleSymbol env filename (.mk name kind loc children)).1
                ++ (handleSymbolList env filename rest).1,
               (handleSymbolList env filename rest).2)) := by
  have hcore : ∀ res : List Event × Option String,
      handleSymbolCore env filename name kind loc children res
        = (Event.refQuery loc ::
            ((match removeRun env filename (.mk name kind loc children) with
              | (ev, some m) => [ev, Event.logLine m]
              | (ev, none) => [ev]) ++
             ([Event.output (usagePrint ⟨filename, .mk name kind loc children, false⟩)]
              ++ res.1)),
           res.2) := by
    intro res
    simp only [handleSymbolCore]
    rw [if_neg hk, if_neg ht, if_neg (by simp [he]), hr]
    simp [classifyUnused, classifyTestOnly]
  refine ⟨?_, ?_, ?_⟩
  · intro diag hfail
    rw [handleSymbol, hcore]
    simp [removeRun, hfail]
  · intro hfail
    rw [handleSymbol, hcore]
    simp [removeRun, hfail]
  · intro hnone rest
    have h2 : (handleSymbol env filename (Symbol.mk name kind loc children)).2 = none := by
      rw [handleSymbol, hcore]
      exact hnone
    rcases hs : handleSymbol env filename (Symbol.mk name kind loc children) with ⟨evs, err⟩
    have herr : err = none := by
      rw [hs] at h2
      exact h2
    subst herr
    rw [handleSymbolList, hs]
    simp [combineResults]

def locC5 : Location := ⟨"file:///ws/a.go", ⟨⟨3, 0⟩, ⟨3, 5⟩⟩⟩

/-- Environment in which every removal invocation fails. -/
def envC5 : RunEnv where
  workspaceDir := "/ws"
  filematcher := fun _ => true
  documentSymbol := fun _ => .ok []
  documentReferences := fun _ => .ok []
  removeFailure := fun _ _ => some "rf failed"

/-- Witness for C5 at a concrete input: the failed removal is logged and
the diagnostic line still appears; no error is produced. -/
theorem removal_failure_logged_nonfatal_witness :
    handleSymbol envC5 "a.go" (.mk "Foo" SymbolKind.function locC5 [])
      = ([Event.refQuery locC5, Event.removeCall "/ws" "rm Foo",
          Event.logLine "unable to execute remove rm Foo: rf failed",
          Event.output "a.go:4:1 function Foo is unused (EU1002)\n"], none) := by
  have h := (removal_failure_logged_nonfatal envC5 "a.go" "Foo"
    SymbolKind.function locC5 [] (by decide) (by decide) (by decide) rfl).1
    "rf failed" rfl
  rw [h]
  simp only [handleSymbolList]
  decide

/-! ## C8: the reporter's single line and its exact format -/

theorem outputsOf_remove (env : RunEnv) (filename : String) (sym : Symbol) :
    outputsOf (match removeRun env filename sym with
      | (ev, some m) => [ev, Event.logLine m]
      | (ev, none) => [ev]) = [] := by
  simp only [removeRun]
  cases env.removeFailure (joinPath env.workspaceDir (filepathDir filename))
      ("rm " ++ removalReference sym) <;> simp [outputsOf]

/-- C8: a classified symbol contributes exactly one diagnostic line when
it is Unused or TestOnly and none when it is Used; the line is exactly
`<file>:<line>:<col> <kind> <name> is used in test only (EU1001)` (or
`… is unused (EU1002)`) followed by a newline, where line and column are
the backend's 0-based coordinates plus 1 and the kind is lowercased. -/
theorem reporter_single_line_format (env : RunEnv) (filename name : String)
    (kind : SymbolKind) (loc : Location) (children : List Symbol)
    (refs : List Location)
    (hk : kind ≠ SymbolKind.field)
    (ht : ¬(goHasSuffix filename "_test.go" = true ∧ kind = SymbolKind.function
      ∧ (goHasPrefix name "Test" || goHasPrefix name "Benchmark"
         || goHasPrefix name "Example") = true))
    (he : isExported (baseName kind name) = true)
    (hr : env.documentReferences loc = .ok refs) :
    outputsOf (handleSymbol env filename (.mk name kind loc children)).1
      = (if classifyUnused refs = true ∨ classifyTestOnly refs = true then
          [filename ++ ":" ++ toString (loc.range.start.line + 1) ++ ":"
            ++ toString (loc.range.start.character + 1) ++ " "
            ++ goToLower (SymbolKind.goString kind) ++ " " ++ name
            ++ (if classifyTestOnly refs = true then
                 " is used in test only (EU1001)\n"
               else " is unused (EU1002)\n")]
         else [])
        ++ outputsOf (handleSymbolList env filename children).1 := by
  rw [handleSymbol]
  simp only [handleSymbolCore]
  rw [if_neg hk, if_neg ht, if_neg (by simp [he]), hr]
  have hrem := outputsOf_remove env filename (.mk name kind loc children)
  by_cases h1 : classifyUnused refs = true <;>
    by_cases h2 : classifyTestOnly refs = true <;>
    simp only [outputsOf, List.filterMap_cons, List.filterMap_append] at hrem ⊢ <;>
    simp [h1, h2, usagePrint, Symbol.name, Symbol.kind, Symbol.location, hrem]

def locC8 : Location := ⟨"file:///ws/pkg/x.go", ⟨⟨9, 1⟩, ⟨9, 7⟩⟩⟩

/-- A reference inside a test file: the symbol is used in tests only. -/
def refC8 : Location := ⟨"file:///ws/pkg/x_test.go", ⟨⟨20, 4⟩, ⟨20, 10⟩⟩⟩

def envC8 : RunEnv where
  workspaceDir := "/ws"
  filematcher := fun _ => true
  documentSymbol := fun _ => .ok []
  documentReferences := fun _ => .ok [refC8]
  removeFailure := fun _ _ => none

/-- Witness for C8 at the claim's example: the test-only function
`Helper` at 0-based line 9, column 1 in `pkg/x.go` yields exactly the
line `pkg/x.go:10:2 function Helper is used in test only (EU1001)`. -/
theorem reporter_single_line_format_witness :
    outputsOf (handleSymbol envC8 "pkg/x.go"
        (.mk "Helper" SymbolKind.function locC8 [])).1
      = ["pkg/x.go:10:2 function Helper is used in test only (EU1001)\n"] := by
  have h := reporter_single_line_format envC8 "pkg/x.go" "Helper"
    SymbolKind.function locC8 [] [refC8] (by decide) (by decide) (by decide) rfl
  rw [h]
  simp only [handleSymbolList]
  decide

/-! ## C6: the removal-reference rewrite -/

theorem splitLastParenDot_eq_none (cs : List Char)
    (h : cs.contains ')' = false) : splitLastParenDot cs = none := by
  induction cs with
  | nil => rfl
  | cons c rest ih =>
    simp only [List.contains_cons, Bool.or_eq_false_iff] at h
    have hc : ¬(c = ')') := by
      intro hceq
      rw [hceq] at h
      simp at h
    rw [splitLastParenDot, ih h.2]
    exact if_neg hc

theorem splitLastParenDot_append (M : List Char)
    (hM : M.contains ')' = false) (hMne : M ≠ []) :
    ∀ T : List Char, T.contains ')' = false →
      splitLastParenDot (T ++ ')' :: '.' :: M) = some (T, M) := by
  intro T
  induction T with
  | nil =>
    intro _
    rcases M with _ | ⟨m, ms⟩
    · exact absurd rfl hMne
    · have hnone : splitLastParenDot ('.' :: m :: ms) = none := by
        apply splitLastParenDot_eq_none
        simpa using hM
      rw [List.nil_append, splitLastParenDot, hnone]
      rfl
  | cons t ts ih =>
    intro hT
    simp only [List.contains_cons, Bool.or_eq_false_iff] at hT
    rw [List.cons_append, splitLastParenDot, ih hT.2]

theorem regexTryMatch_append (M : List Char)
    (hM : M.contains ')' = false) (hMne : M ≠ []) (T : List Char)
    (hT : T.contains ')' = false) (hTne : T ≠ []) :
    regexTryMatch (T ++ ')' :: '.' :: M) = some (T, M) := by
  rw [regexTryMatch, splitLastParenDot_append M hM hMne T hT]
  simp [hTne]

theorem regexMatchAfterParen_eq (star : Bool) (recv meth : List Char)
    (hr : recv.contains ')' = false) (hrne : recv ≠ [])
    (hstar : recv.head? ≠ some '*')
    (hm : meth.contains ')' = false) (hmne : meth ≠ []) :
    regexMatchAfterParen
        ((if star then ['*'] else []) ++ recv ++ ')' :: '.' :: meth)
      = some (recv, meth) := by
  cases star
  · rcases recv with _ | ⟨r, rs⟩
    · exact absurd rfl hrne
    · have hrstar : ¬(r = '*') := by
        intro h
        exact hstar (by simp [h])
      simp only [Bool.false_eq_true, if_false, List.nil_append,
        List.cons_append]
      rw [regexMatchAfterParen, if_neg hrstar, ← List.cons_append]
      exact regexTryMatch_append meth hm hmne (r :: rs) hr hrne
  · simp only [if_true, List.cons_append, List.nil_append]
    rw [regexMatchAfterParen, if_pos rfl,
      regexTryMatch_append meth hm hmne recv hr hrne]

theorem methodReplaceAll_eq (star : Bool) (recv meth : List Char)
    (hr : recv.contains ')' = false) (hrne : recv ≠ [])
    (hstar : recv.head? ≠ some '*')
    (hm : meth.contains ')' = false) (hmne : meth ≠ []) :
    methodReplaceAll
        ('(' :: ((if star then ['*'] else []) ++ recv ++ ')' :: '.' :: meth))
      = recv ++ '.' :: meth := by
  rw [methodReplaceAll, if_pos rfl,
    regexMatchAfterParen_eq star recv meth hr hrne hstar hm hmne]

/-- C6: the removal reference equals the symbol's name unless the symbol
is a method whose name contains a `.`; in that case a name of the shape
`(ReceiverType).MethodName` — with an optional leading `*` on the
receiver — is rewritten to `ReceiverType.MethodName` (for any receiver
and method-name parts that contain no `)` and a receiver that does not
itself start with `*`). -/
theorem removal_reference_rewrite :
    (∀ sym : Symbol,
      sym.kind ≠ SymbolKind.method ∨ goContains sym.name '.' = false →
      removalReference sym = sym.name)
    ∧ (∀ (star : Bool) (recv meth : String) (loc : Location)
        (children : List Symbol),
      recv.toList.contains ')' = false → recv ≠ "" →
      recv.toList.head? ≠ some '*' →
      meth.toList.contains ')' = false → meth ≠ "" →
      removalReference
          (.mk ("(" ++ (if star then "*" else "") ++ recv ++ ")." ++ meth)
            SymbolKind.method loc children)
        = recv ++ "." ++ meth) := by
  constructor
  · intro sym h
    rcases h with h | h
    · rw [removalReference, if_neg]
      rintro ⟨h1, -⟩
      exact h h1
    · rw [removalReference, if_neg]
      rintro ⟨-, h2⟩
      rw [h] at h2
      exact Bool.false_ne_true h2
  · intro star recv meth loc children hr hrne hstar hm hmne
    have lparen_toList : ("(").toList = ['('] := rfl
    have star_toList : ("*").toList = ['*'] := rfl
    have parendot_toList : (")." : String).toList = [')', '.'] := rfl
    have dot_toList : ("." : String).toList = ['.'] := rfl
    have hlist :
        ("(" ++ (if star then "*" else "") ++ recv ++ ")." ++ meth).toList
          = '(' :: ((if star then ['*'] else [])
              ++ recv.toList ++ ')' :: '.' :: meth.toList) := by
      cases star <;>
        simp [toList_append, lparen_toList, star_toList, parendot_toList]
    have hname : Symbol.name
        (.mk ("(" ++ (if star then "*" else "") ++ recv ++ ")." ++ meth)
          SymbolKind.method loc children)
        = "(" ++ (if star then "*" else "") ++ recv ++ ")." ++ meth := rfl
    have hcont : goContains
        (Symbol.name (.mk ("(" ++ (if star then "*" else "") ++ recv
          ++ ")." ++ meth) SymbolKind.method loc children)) '.' = true := by
      rw [hname, goContains, hlist]
      simp
    rw [removalReference, if_pos ⟨rfl, hcont⟩, hname, methodNameRewrite, hlist,
      methodReplaceAll_eq star recv.toList meth.toList hr
        (toList_ne_nil hrne) hstar hm (toList_ne_nil hmne)]
    conv_rhs => rw [← String.asString_toList (recv ++ "." ++ meth)]
    congr 1
    simp [toList_append, dot_toList]

def locC6 : Location := ⟨"file:///ws/a.go", ⟨⟨3, 0⟩, ⟨3, 5⟩⟩⟩

/-- Witness for C6 at the claim's examples: `(*Foo).Bar` becomes
`Foo.Bar`, and the non-method name `Baz` passes through unchanged. -/
theorem removal_reference_rewrite_witness :
    removalReference (.mk "(*Foo).Bar" SymbolKind.method locC6 []) = "Foo.Bar"
    ∧ removalReference (.mk "Baz" SymbolKind.function locC6 []) = "Baz" := by
  have h := removal_reference_rewrite
  constructor
  · have heq : ("(" ++ (if true then "*" else "") ++ "Foo" ++ ")." ++ "Bar"
        : String) = "(*Foo).Bar" := by decide
    have heq2 : ("Foo" ++ "." ++ "Bar" : String) = "Foo.Bar" := by decide
    have h2 := h.2 true "Foo" "Bar" locC6 [] (by decide) (by decide)
      (by decide) (by decide) (by decide)
    rw [heq, heq2] at h2
    exact h2
  · exact h.1 (.mk "Baz" SymbolKind.function locC6 []) (Or.inl (by decide))

/-! ## C2: a per-file query error aborts the whole walk -/

def locC2 : Location := ⟨"file:///ws/good.go", ⟨⟨3, 0⟩, ⟨3, 5⟩⟩⟩

def symC2 : Symbol := .mk "Foo" SymbolKind.function locC2 []

/-- Environment in which listing symbols fails for `bad.go` and
succeeds, with one unused exported symbol, for every other file. -/
def envC2 : RunEnv where
  workspaceDir := "/ws"
  filematcher := fun _ => true
  documentSymbol := fun f =>
    if f = "bad.go" then .error "boom" else .ok [symC2]
  documentReferences := fun _ => .ok []
  removeFailure := fun _ _ => none

/-- C2 counterexample: when symbol listing fails for the first file, the
walk result carries the wrapped error and an empty trace — no log event
was emitted inside the walk, and the second file (whose handling on its
own would produce events) was never processed.  This refutes the claim
that the error is logged and the walk continues to the next file. -/
theorem walk_stops_at_first_file_error_cex :
    runnerWalk envC2 (.dir "ws" [.file "bad.go", .file "good.go"])
      = ([], some "failed to get symbols: boom")
    ∧ (handleFile envC2 "good.go").1 ≠ [] := by
  constructor
  · simp only [runnerWalk, goWalk, goWalkEntry, goWalkEntries, runnerWalkFn,
      handleFile]
    decide
  · have hds : envC2.documentSymbol "good.go" = .ok [symC2] := rfl
    simp only [handleFile, hds, symC2, handleSymbol, handleSymbolList]
    decide

/-- C2 (amended) — `walk_aborts_on_file_error`: a symbol-listing failure
(or reference-query failure, which `handleFile` also returns) for a file
is returned from the walk callback, and `filepath.Walk` then aborts the
entire traversal: the walk's result is that file's error, no log line is
emitted by the walker, and the files after it are never handed to the
classifier. -/
theorem walk_aborts_on_file_error (env : RunEnv) (rootName aName m : String)
    (evs : List Event) (rest : List FSEntry)
    (hroot : goHasPrefix rootName "." = false)
    (hgo : goHasSuffix (joinPath env.workspaceDir aName) ".go" = true)
    (hmatch : env.filematcher (trimLeading (trimLeading
      (joinPath env.workspaceDir aName) env.workspaceDir) "/") = true)
    (hfile : handleFile env (trimLeading (trimLeading
      (joinPath env.workspaceDir aName) env.workspaceDir) "/")
      = (evs, some m)) :
    runnerWalk env (.dir rootName (.file aName :: rest)) = (evs, some m) := by
  simp only [runnerWalk, goWalk, goWalkEntry, goWalkEntries, runnerWalkFn,
    FSEntry.name, FSEntry.isDir]
  simp [hroot, hgo, hmatch, hfile]

/-- Witness for the amended C2 at a concrete input. -/
theorem walk_aborts_on_file_error_witness :
    runnerWalk envC2 (.dir "ws" [.file "bad.go", .file "not-reached.go"])
      = ([], some "failed to get symbols: boom") :=
  walk_aborts_on_file_error envC2 "ws" "bad.go" "failed to get symbols: boom"
    [] [.file "not-reached.go"] (by decide) (by decide) (by decide) (by decide)

end Punused
